import Mathlib

/-!
Verification of the mg repository's name-processing, entity-mapping,
database and alerting layers against its natural-language specification.

Python strings are modelled as lists of characters (type Str below), Python
numbers as exact rationals or integers, Python dictionaries as insertion
ordered association lists, and fallible code as Except / Option values.
Database effects are modelled by explicit oracle records supplying the
answers the database would give.
-/

namespace Mg

/-- Python strings are modelled as lists of characters. -/
abbrev Str := List Char

/-- Converts a Lean string literal into the list-of-characters model. -/
def pyStr (s : String) : Str := s.toList

/-! ## mg/etl/lexis.py : basic string helpers -/

/-- NAME_SUFFIXES from mg/etl/lexis.py. -/
def NAME_SUFFIXES : List Str :=
  [pyStr " Jr.", pyStr " Sr.", pyStr " Jr", pyStr " Sr", pyStr " III",
   pyStr " II", pyStr " IV", pyStr " V", pyStr " I"]

/-- Python substring containment (the `in` operator) for a non-empty pattern. -/
def containsSub (pat : Str) : Str → Bool
  | [] => pat.isEmpty
  | c :: rest => pat.isPrefixOf (c :: rest) || containsSub pat rest

/-- Fuel-indexed helper for replaceSub; the fuel starts at the length of the
string, which bounds the number of steps, so the zero-fuel case is never hit. -/
def replaceSubAux (pat rep : Str) : Nat → Str → Str
  | _, [] => []
  | 0, s => s
  | fuel + 1, c :: rest =>
    if pat ≠ [] && pat.isPrefixOf (c :: rest) then
      rep ++ replaceSubAux pat rep fuel ((c :: rest).drop pat.length)
    else
      c :: replaceSubAux pat rep fuel rest

/-- Python str.replace: replaces all non-overlapping occurrences of pat,
scanning left to right (identity when the pattern is empty, a case the
source never exercises). -/
def replaceSub (pat rep s : Str) : Str := replaceSubAux pat rep s.length s

/-- Python str.strip(): removes leading and trailing whitespace. -/
def trimStr (s : Str) : Str :=
  ((s.dropWhile Char.isWhitespace).reverse.dropWhile Char.isWhitespace).reverse

/-- Model of the third-party unidecode transliteration used by
normalize_accents, restricted to a table of common Latin accented letters;
it is the identity on ASCII characters, which unidecode also guarantees. -/
def unidecodeChar (c : Char) : Char :=
  match c with
  | 'á' => 'a' | 'à' => 'a' | 'â' => 'a' | 'ä' => 'a' | 'ã' => 'a'
  | 'é' => 'e' | 'è' => 'e' | 'ê' => 'e' | 'ë' => 'e'
  | 'í' => 'i' | 'ì' => 'i' | 'î' => 'i' | 'ï' => 'i'
  | 'ó' => 'o' | 'ò' => 'o' | 'ô' => 'o' | 'ö' => 'o' | 'õ' => 'o'
  | 'ú' => 'u' | 'ù' => 'u' | 'û' => 'u' | 'ü' => 'u'
  | 'ñ' => 'n' | 'ç' => 'c'
  | 'Á' => 'A' | 'É' => 'E' | 'Í' => 'I' | 'Ó' => 'O' | 'Ú' => 'U'
  | 'Ñ' => 'N' | 'Ç' => 'C'
  | _ => c

/-- normalize_accents from mg/etl/lexis.py (unidecode.unidecode on a
non-empty string, identity on the empty string). -/
def normalize_accents (s : Str) : Str :=
  if s = [] then s else s.map unidecodeChar

/-- remove_periods from mg/etl/lexis.py. -/
def remove_periods (s : Str) : Str := replaceSub (pyStr ".") [] s

/-- strip_suffix from mg/etl/lexis.py: for each suffix in NAME_SUFFIXES, if it
occurs in the string, replace every occurrence with nothing and strip. -/
def strip_suffix (s : Str) : Str :=
  NAME_SUFFIXES.foldl
    (fun acc suf => if containsSub suf acc then trimStr (replaceSub suf [] acc) else acc)
    s

/-- strip_convert_to_lowercase from mg/etl/lexis.py: transliterate accents,
optionally remove every occurrence of each name suffix (join of split), then
keep only alphanumeric characters, lowercased. -/
def strip_convert_to_lowercase (s : Str) (strip_suffixes : Bool := true) : Str :=
  if s = [] then s
  else
    let ns := normalize_accents s
    let ns := if strip_suffixes then
        NAME_SUFFIXES.foldl (fun acc suf => replaceSub suf [] acc) ns
      else ns
    (ns.filter Char.isAlphanum).map Char.toLower

/-- normalize_name from mg/etl/lexis.py. -/
def normalize_name (s : Str) (include_suffixes : Bool := true) : Str :=
  strip_convert_to_lowercase (remove_periods (if include_suffixes then strip_suffix s else s))

/-- Python str.split() with no argument: split on whitespace runs,
discarding empty pieces. -/
def splitWs (s : Str) : List Str :=
  let res := s.foldr
    (fun c (acc : Str × List Str) =>
      if c.isWhitespace then
        if acc.1 ≠ [] then ([], acc.1 :: acc.2) else ([], acc.2)
      else (c :: acc.1, acc.2))
    ([], [])
  if res.1 ≠ [] then res.1 :: res.2 else res.2

/-! ## fix_capitalization from mg/etl/lexis.py -/

/-- The two-letter initials test of fix_capitalization: length two, first
character upper case, second lower case. -/
def isTwoInitials (w : Str) : Bool :=
  match w with
  | [a, b] => a.isUpper && b.isLower
  | _ => false

/-- The Mc branch of fix_capitalization: starts with Mc, longer than two
characters, third character lower case. -/
def mcFix (w : Str) : Option Str :=
  match w with
  | 'M' :: 'c' :: c :: rest => if c.isLower then some ('M' :: 'c' :: c.toUpper :: rest) else none
  | _ => none

/-- The Mac branch of fix_capitalization. -/
def macFix (w : Str) : Option Str :=
  match w with
  | 'M' :: 'a' :: 'c' :: c :: rest =>
    if c.isLower then some ('M' :: 'a' :: 'c' :: c.toUpper :: rest) else none
  | _ => none

/-- The NAME_PREFIXES_BOTH_CAPS loop of fix_capitalization, whose entries
De, Ne, Le all have length two and pairwise distinct starting letters, so the
first-match loop is a three-way case split. -/
def bothCapsFix (w : Str) : Option Str :=
  match w with
  | 'D' :: 'e' :: c :: rest => if c.isLower then some ('D' :: 'e' :: c.toUpper :: rest) else none
  | 'N' :: 'e' :: c :: rest => if c.isLower then some ('N' :: 'e' :: c.toUpper :: rest) else none
  | 'L' :: 'e' :: c :: rest => if c.isLower then some ('L' :: 'e' :: c.toUpper :: rest) else none
  | _ => none

/-- The per-word dispatch of fix_capitalization, given the list of already
fixed words and the current index, in the source's branch order. -/
def fixWord (acc : List Str) (i : Nat) (w : Str) : Str :=
  if isTwoInitials w then w.map Char.toUpper
  else
    match mcFix w with
    | some w2 => w2
    | none =>
      match macFix w with
      | some w2 => w2
      | none =>
        match bothCapsFix w with
        | some w2 => w2
        | none =>
          if w = pyStr "La" && 0 < i && acc ≠ [] && acc.getLast? = some (pyStr "De")
          then pyStr "la" else w

/-- The word loop of fix_capitalization, carrying the fixed words so far and
the current index. -/
def fixCapLoop (acc : List Str) (i : Nat) : List Str → List Str
  | [] => acc
  | w :: rest => fixCapLoop (acc ++ [fixWord acc i w]) (i + 1) rest

/-- fix_capitalization from mg/etl/lexis.py. -/
def fix_capitalization (s : Str) (remove_accents : Bool := false) : Str :=
  if s = [] then s
  else
    let s := if remove_accents then normalize_accents s else s
    List.intercalate (pyStr " ") (fixCapLoop [] 0 (splitWs s))

/-! ## name_similarity from mg/etl/lexis.py and its components -/

/-- Fuel-indexed Levenshtein edit distance (insertion, deletion, substitution
all of cost one), the classical recursion computed by the Levenshtein library
used in mg/etl/lexis.py.  The fuel starts at the sum of the lengths, which
bounds the recursion depth, so the zero-fuel case is never reached. -/
def levDistAux : Nat → List Char → List Char → Nat
  | _, [], ys => ys.length
  | _, x :: xs, [] => (x :: xs).length
  | 0, xs, ys => xs.length + ys.length
  | fuel + 1, x :: xs, y :: ys =>
    if x = y then levDistAux fuel xs ys
    else 1 + min (levDistAux fuel xs ys)
             (min (levDistAux fuel (x :: xs) ys) (levDistAux fuel xs (y :: ys)))

/-- Levenshtein edit distance between two strings. -/
def levDist (xs ys : Str) : Nat := levDistAux (xs.length + ys.length) xs ys

/-- Helper for pyDedup, carrying the elements already kept. -/
def pyDedupAux {α : Type} [DecidableEq α] (seen : List α) : List α → List α
  | [] => []
  | x :: xs =>
    if x ∈ seen then pyDedupAux seen xs else x :: pyDedupAux (seen ++ [x]) xs

/-- Deduplication keeping the first occurrence of each element, the iteration
order of a Python set or dict built by insertion. -/
def pyDedup {α : Type} [DecidableEq α] (l : List α) : List α := pyDedupAux [] l

/-- jaccard_similarity from mg/etl/lexis.py: character-set Jaccard
coefficient, zero when the union is empty.  Python sets are modelled by
deduplicated character lists. -/
def jaccard_similarity (s1 s2 : Str) : ℚ :=
  let inter := ((pyDedup s1).filter (fun c => c ∈ s2)).length
  let union := (pyDedup s1).length + ((pyDedup s2).filter (fun c => c ∉ s1)).length
  if union ≠ 0 then (inter : ℚ) / (union : ℚ) else 0

/-- Model of the tokenization performed by sklearn's CountVectorizer with
default settings: tokens are maximal word-character runs of length at least
two.  A normalized name contains no separators, so the document's token list
is the whole name when it has at least two characters, and empty otherwise. -/
def tokenizeDoc (s : Str) : List Str := if 2 ≤ s.length then [s] else []

/-- The fitted vocabulary over the two documents. -/
def vocabOf (n1 n2 : Str) : List Str := pyDedup (tokenizeDoc n1 ++ tokenizeDoc n2)

/-- Dot product of two rational vectors. -/
def dotProd (v w : List ℚ) : ℚ := (List.zipWith (· * ·) v w).sum

/-- The count vector of a document over a vocabulary. -/
def vecOf (vocab : List Str) (d : Str) : List ℚ :=
  vocab.map (fun t => ((tokenizeDoc d).count t : ℚ))

/-- Model of sklearn cosine_similarity on the two count vectors.  Each vector
here has at most one nonzero entry, which is 1, so its Euclidean norm equals
its squared norm (both are 0 or 1) and no square root is needed; a zero
vector yields similarity 0, as sklearn's normalize maps zero rows to zero. -/
def cosineSim (n1 n2 : Str) : ℚ :=
  let vocab := vocabOf n1 n2
  let v1 := vecOf vocab n1
  let v2 := vecOf vocab n2
  if dotProd v1 v1 = 0 ∨ dotProd v2 v2 = 0 then 0
  else dotProd v1 v2 / (dotProd v1 v1 * dotProd v2 v2)

/-- The two ways name_similarity can raise: a ZeroDivisionError when both
normalized names are empty, and the CountVectorizer ValueError when the
fitted vocabulary is empty. -/
inductive SimErr where
  | divByZero
  | emptyVocabulary
  deriving DecidableEq, Repr

instance {ε α : Type} [DecidableEq ε] [DecidableEq α] : DecidableEq (Except ε α) := fun
  | .ok a, .ok b => decidable_of_iff (a = b) (by simp)
  | .error a, .error b => decidable_of_iff (a = b) (by simp)
  | .ok _, .error _ => .isFalse (by simp)
  | .error _, .ok _ => .isFalse (by simp)

/-- name_similarity from mg/etl/lexis.py: normalize both names, then blend
Levenshtein similarity (weight 0.5), character-set Jaccard similarity
(weight 0.3) and cosine similarity of the count vectors (weight 0.2).
The Levenshtein term divides by the maximum normalized length, raising on
zero; the vectorizer raises on an empty vocabulary. -/
def name_similarity (name1 name2 : Str) : Except SimErr ℚ :=
  let n1 := normalize_name name1
  let n2 := normalize_name name2
  if max n1.length n2.length = 0 then .error .divByZero
  else
    let lev_sim : ℚ := 1 - (levDist n1 n2 : ℚ) / ((max n1.length n2.length : ℕ) : ℚ)
    let jaccard_sim := jaccard_similarity n1 n2
    if vocabOf n1 n2 = [] then .error .emptyVocabulary
    else .ok (0.5 * lev_sim + 0.3 * jaccard_sim + 0.2 * cosineSim n1 n2)

/-! ## Bounds for the similarity components -/

theorem levDistAux_le_max (fuel : Nat) : ∀ xs ys : List Char,
    xs.length + ys.length ≤ fuel → levDistAux fuel xs ys ≤ max xs.length ys.length := by
  induction fuel with
  | zero =>
    intro xs ys h
    match xs, ys with
    | [], ys => simp [levDistAux]
    | x :: xs, [] => simp [levDistAux]
    | x :: xs, y :: ys => simp at h
  | succ fuel ih =>
    intro xs ys h
    match xs, ys with
    | [], ys => simp [levDistAux]
    | x :: xs, [] => simp [levDistAux]
    | x :: xs, y :: ys =>
      simp only [levDistAux]
      simp only [List.length_cons] at h ⊢
      by_cases hxy : x = y
      · simp only [if_pos hxy]
        have := ih xs ys (by omega)
        omega
      · simp only [if_neg hxy]
        have := ih xs ys (by omega)
        omega

theorem levDist_le_max (xs ys : Str) : levDist xs ys ≤ max xs.length ys.length :=
  levDistAux_le_max _ xs ys (le_refl _)

theorem jaccard_similarity_nonneg (s1 s2 : Str) : 0 ≤ jaccard_similarity s1 s2 := by
  simp only [jaccard_similarity]
  split
  · positivity
  · exact le_refl 0

theorem jaccard_similarity_le_one (s1 s2 : Str) : jaccard_similarity s1 s2 ≤ 1 := by
  simp only [jaccard_similarity]
  split
  · rename_i h
    have hu : (0 : ℚ) <
        (((pyDedup s1).length + ((pyDedup s2).filter (fun c => c ∉ s1)).length : ℕ) : ℚ) := by
      have := Nat.pos_of_ne_zero h
      exact_mod_cast this
    rw [div_le_one hu]
    have hle : ((pyDedup s1).filter (fun c => c ∈ s2)).length ≤
        (pyDedup s1).length + ((pyDedup s2).filter (fun c => c ∉ s1)).length := by
      have := List.length_filter_le (fun c => c ∈ s2) (pyDedup s1)
      omega
    exact_mod_cast hle
  · exact zero_le_one

theorem dotProd_zero_left (l : List Str) (v : List ℚ) :
    dotProd (l.map fun _ => (0 : ℚ)) v = 0 := by
  induction l generalizing v with
  | nil => simp [dotProd]
  | cons x xs ih =>
    cases v with
    | nil => simp [dotProd]
    | cons w ws => simpa [dotProd] using ih ws

/-- The cosine term of name_similarity in closed form: with whole-name
tokens it is 1 exactly when the two normalized names are equal with at least
two characters, and 0 otherwise. -/
theorem cosineSim_eq (n1 n2 : Str) :
    cosineSim n1 n2 = if 2 ≤ n1.length ∧ n1 = n2 then 1 else 0 := by
  by_cases h1 : 2 ≤ n1.length
  · by_cases h3 : n1 = n2
    · subst h3
      simp only [cosineSim, vocabOf, tokenizeDoc, if_pos h1, pyDedup, pyDedupAux, vecOf, dotProd]
      simp [h1]
    · have h3' : n2 ≠ n1 := Ne.symm h3
      by_cases h2 : 2 ≤ n2.length
      · simp only [cosineSim, vocabOf, tokenizeDoc, if_pos h1, if_pos h2, pyDedup, pyDedupAux,
          vecOf, dotProd]
        simp [h3, h3']
      · simp only [cosineSim, vocabOf, tokenizeDoc, if_pos h1, if_neg h2, pyDedup, pyDedupAux,
          vecOf, dotProd]
        simp [h3, h3']
  · have hv : vecOf (vocabOf n1 n2) n1 = (vocabOf n1 n2).map fun _ => (0 : ℚ) := by
      simp [vecOf, tokenizeDoc, h1]
    have hne : ¬(2 ≤ n1.length ∧ n1 = n2) := fun h => h1 h.1
    simp only [cosineSim, hv, dotProd_zero_left, if_neg hne]
    simp

/-! ## The spec's asserted form of the cosine term (claim C3) -/

/-- Cosine similarity of single-character-tokenized bag-of-words vectors,
the formula asserted by the specification for the third blend component:
vectors of per-character counts over the character vocabulary of both names,
with the true Euclidean norms. -/
noncomputable def charCosine (n1 n2 : Str) : ℝ :=
  let vocab := pyDedup (n1 ++ n2)
  let v1 : List ℝ := vocab.map fun c => (n1.count c : ℝ)
  let v2 : List ℝ := vocab.map fun c => (n2.count c : ℝ)
  let dot := (List.zipWith (· * ·) v1 v2).sum
  let norm1 := Real.sqrt (List.zipWith (· * ·) v1 v1).sum
  let norm2 := Real.sqrt (List.zipWith (· * ·) v2 v2).sum
  if norm1 = 0 ∨ norm2 = 0 then 0 else dot / (norm1 * norm2)

/-- The value the specification asserts name_similarity returns: the same
Levenshtein and Jaccard terms, but a cosine over single-character token
vectors. -/
noncomputable def specBlend (name1 name2 : Str) : ℝ :=
  let n1 := normalize_name name1
  let n2 := normalize_name name2
  0.5 * (1 - (levDist n1 n2 : ℝ) / ((max n1.length n2.length : ℕ) : ℝ))
    + 0.3 * (jaccard_similarity n1 n2 : ℝ) + 0.2 * charCosine n1 n2

/-- C3 counterexample: on the names "ab" and "ba" the code returns 0.3 (the
cosine term of the code is 0 because the two whole-name tokens differ), while
the formula claimed by the spec evaluates to 0.5 (single-character vectors of
"ab" and "ba" are identical, so their cosine is 1). -/
theorem name_similarity_char_cosine_cx :
    name_similarity (pyStr "ab") (pyStr "ba") = .ok (3/10) ∧
    specBlend (pyStr "ab") (pyStr "ba") = 1/2 ∧
    ((3/10 : ℚ) : ℝ) ≠ 1/2 := by
  refine ⟨?_, ?_, by norm_num⟩
  · simp [name_similarity, normalize_name, strip_suffix, strip_convert_to_lowercase,
      remove_periods, replaceSub, replaceSubAux, containsSub, trimStr, NAME_SUFFIXES, pyStr,
      normalize_accents, unidecodeChar, levDist, levDistAux, jaccard_similarity, tokenizeDoc,
      vocabOf, vecOf, dotProd, cosineSim, pyDedup, pyDedupAux]
    norm_num
  · have e1 : normalize_name (pyStr "ab") = ['a', 'b'] := by decide
    have e2 : normalize_name (pyStr "ba") = ['b', 'a'] := by decide
    have elev : levDist ['a', 'b'] ['b', 'a'] = 2 := by decide
    have ejac : jaccard_similarity ['a', 'b'] ['b', 'a'] = 1 := by
      have h1 : ((pyDedup ['a', 'b']).filter (fun c => c ∈ ['b', 'a'])).length = 2 := by decide
      have h2 : (pyDedup ['a', 'b']).length +
          ((pyDedup ['b', 'a']).filter (fun c => c ∉ ['a', 'b'])).length = 2 := by decide
      simp only [jaccard_similarity, h1, h2]
      norm_num
    have ecos : charCosine ['a', 'b'] ['b', 'a'] = 1 := by
      have hvoc : pyDedup (['a', 'b'] ++ ['b', 'a']) = ['a', 'b'] := by decide
      have hs2 : Real.sqrt 2 ≠ 0 := by
        simp [Real.sqrt_eq_zero']
      have hba : ('b' : Char) ≠ 'a' := by decide
      have hab : ('a' : Char) ≠ 'b' := by decide
      simp only [charCosine, hvoc, List.map_cons, List.map_nil, List.zipWith_cons_cons,
        List.zipWith_nil_right, List.zipWith_nil_left, List.sum_cons, List.sum_nil]
      norm_num [List.count_cons, List.count_nil, hba, hab]
    simp only [specBlend, e1, e2, elev, ejac, ecos]
    norm_num

/-- C3 amended: whenever name_similarity returns a value, that value is
0.5 times the Levenshtein similarity plus 0.3 times the character-set Jaccard
similarity plus 0.2 times the cosine similarity of the count vectors under
the vectorizer's real tokenization (tokens of at least two word characters,
hence the whole normalized name), and the result lies in the interval
from 0 to 1. -/
theorem name_similarity_blend_range (name1 name2 : Str) (s : ℚ)
    (h : name_similarity name1 name2 = .ok s) :
    s = 0.5 * (1 - (levDist (normalize_name name1) (normalize_name name2) : ℚ) /
          ((max (normalize_name name1).length (normalize_name name2).length : ℕ) : ℚ))
      + 0.3 * jaccard_similarity (normalize_name name1) (normalize_name name2)
      + 0.2 * cosineSim (normalize_name name1) (normalize_name name2)
      ∧ 0 ≤ s ∧ s ≤ 1 := by
  simp only [name_similarity] at h
  split at h
  · exact absurd h (by simp)
  · rename_i hmax
    split at h
    · exact absurd h (by simp)
    · rename_i hvocab
      have hs : 0.5 * (1 - (levDist (normalize_name name1) (normalize_name name2) : ℚ) /
            ((max (normalize_name name1).length (normalize_name name2).length : ℕ) : ℚ))
          + 0.3 * jaccard_similarity (normalize_name name1) (normalize_name name2)
          + 0.2 * cosineSim (normalize_name name1) (normalize_name name2) = s := by
        simpa using h
      subst hs
      refine ⟨rfl, ?_, ?_⟩
      all_goals
        have hM : (0 : ℚ) <
            ((max (normalize_name name1).length (normalize_name name2).length : ℕ) : ℚ) := by
          exact_mod_cast Nat.pos_of_ne_zero hmax
        have hL0 : (0 : ℚ) ≤ (levDist (normalize_name name1) (normalize_name name2) : ℚ) := by
          exact_mod_cast Nat.zero_le _
        have hLM : (levDist (normalize_name name1) (normalize_name name2) : ℚ) ≤
            ((max (normalize_name name1).length (normalize_name name2).length : ℕ) : ℚ) := by
          exact_mod_cast levDist_le_max _ _
        have hdiv0 : (0 : ℚ) ≤ (levDist (normalize_name name1) (normalize_name name2) : ℚ) /
            ((max (normalize_name name1).length (normalize_name name2).length : ℕ) : ℚ) :=
          div_nonneg hL0 (le_of_lt hM)
        have hdiv1 : (levDist (normalize_name name1) (normalize_name name2) : ℚ) /
            ((max (normalize_name name1).length (normalize_name name2).length : ℕ) : ℚ) ≤ 1 := by
          rw [div_le_one hM]; exact hLM
        have hj0 := jaccard_similarity_nonneg (normalize_name name1) (normalize_name name2)
        have hj1 := jaccard_similarity_le_one (normalize_name name1) (normalize_name name2)
        have hc : cosineSim (normalize_name name1) (normalize_name name2) = 1 ∨
            cosineSim (normalize_name name1) (normalize_name name2) = 0 := by
          rw [cosineSim_eq]; split <;> simp
        rcases hc with hc | hc <;> rw [hc] <;> linarith

/-- Witness for the C3 amended theorem at the names "ab" and "ba". -/
theorem name_similarity_blend_range_witness : (0 : ℚ) ≤ 3/10 ∧ (3/10 : ℚ) ≤ 1 := by
  have h : name_similarity (pyStr "ab") (pyStr "ba") = .ok (3/10) := by
    simp [name_similarity, normalize_name, strip_suffix, strip_convert_to_lowercase,
      remove_periods, replaceSub, replaceSubAux, containsSub, trimStr, NAME_SUFFIXES, pyStr,
      normalize_accents, unidecodeChar, levDist, levDistAux, jaccard_similarity, tokenizeDoc,
      vocabOf, vecOf, dotProd, cosineSim, pyDedup, pyDedupAux]
    norm_num
  exact ⟨(name_similarity_blend_range _ _ _ h).2.1, (name_similarity_blend_range _ _ _ h).2.2⟩

/-- C10: name_similarity raises instead of returning a score on two families
of inputs: when both names normalize to the empty string the Levenshtein term
divides by zero, and when neither normalized name reaches two characters (so
the vectorizer sees no token at all) the vectorizer rejects the empty
vocabulary; the concrete pairs ("", "") and ("J.", "Q.") exercise the two
failure modes. -/
theorem name_similarity_partiality :
    (∀ name1 name2 : Str, normalize_name name1 = [] → normalize_name name2 = [] →
      name_similarity name1 name2 = .error .divByZero) ∧
    (∀ name1 name2 : Str, (normalize_name name1).length < 2 →
      (normalize_name name2).length < 2 →
      ¬(normalize_name name1 = [] ∧ normalize_name name2 = []) →
      name_similarity name1 name2 = .error .emptyVocabulary) ∧
    name_similarity (pyStr "") (pyStr "") = .error .divByZero ∧
    name_similarity (pyStr "J.") (pyStr "Q.") = .error .emptyVocabulary := by
  have p1 : ∀ name1 name2 : Str, normalize_name name1 = [] → normalize_name name2 = [] →
      name_similarity name1 name2 = .error .divByZero := by
    intro name1 name2 h1 h2
    have hmax : max (normalize_name name1).length (normalize_name name2).length = 0 := by
      rw [h1, h2]; rfl
    simp only [name_similarity, if_pos hmax]
  have p2 : ∀ name1 name2 : Str, (normalize_name name1).length < 2 →
      (normalize_name name2).length < 2 →
      ¬(normalize_name name1 = [] ∧ normalize_name name2 = []) →
      name_similarity name1 name2 = .error .emptyVocabulary := by
    intro name1 name2 h1 h2 hne
    have hmax : ¬(max (normalize_name name1).length (normalize_name name2).length = 0) := by
      intro h
      have h0 := Nat.max_eq_zero_iff.mp h
      exact hne ⟨List.eq_nil_of_length_eq_zero h0.1, List.eq_nil_of_length_eq_zero h0.2⟩
    have hvoc : vocabOf (normalize_name name1) (normalize_name name2) = [] := by
      have ht1 : ¬(2 ≤ (normalize_name name1).length) := not_le.mpr h1
      have ht2 : ¬(2 ≤ (normalize_name name2).length) := not_le.mpr h2
      simp only [vocabOf, tokenizeDoc, if_neg ht1, if_neg ht2]
      rfl
    simp only [name_similarity, if_neg hmax, if_pos hvoc]
  refine ⟨p1, p2, p1 _ _ (by decide) (by decide), p2 _ _ (by decide) (by decide) (by decide)⟩

/-- Witness for C10 at the concrete pair ("", ""). -/
theorem name_similarity_partiality_witness :
    name_similarity (pyStr "") (pyStr "") = .error .divByZero :=
  name_similarity_partiality.1 (pyStr "") (pyStr "") (by decide) (by decide)

/-- C7 (code divergence): fix_capitalization maps "De La Fuente" to
"DE LA Fuente", because the two-letter initials branch rewrites both "De" and
"La" to all caps before the De-la branch can ever see them; the documented
"De La Fuente to De la Fuente" repair never fires. -/
theorem fix_capitalization_de_la_fuente :
    fix_capitalization (pyStr "De La Fuente") = pyStr "DE LA Fuente" := by decide

/-! ## mg/db/postgres_manager.py : identifier validation and row values -/

/-- The guarded bare SQL keywords of PostgresManager.validate_identifier. -/
def sqlKeywords : List Str :=
  [pyStr "select", pyStr "insert", pyStr "update", pyStr "delete",
   pyStr "drop", pyStr "truncate", pyStr "alter", pyStr "create"]

/-- PostgresManager.validate_identifier as a predicate: non-empty, matching
re.match of the anchored pattern letter-or-underscore then
alphanumerics-or-underscores, and not a bare SQL keyword after lowercasing.
Python's dollar anchor also matches just before one trailing newline, so a
name with a single trailing newline passes the pattern while the keyword
test still compares the raw lowercased string (hence a name like a keyword
plus newline is accepted).  The source raises ValueError exactly when this
is false. -/
def validIdent (name : Str) : Bool :=
  let core := if name.getLast? = some '\n' then name.dropLast else name
  (match core with
   | [] => false
   | c :: rest => (c.isAlpha || c = '_') && rest.all (fun d => d.isAlphanum || d = '_'))
  && !(sqlKeywords.contains (name.map Char.toLower))

/-- Python cell values occurring in rows handed to the database layer.
The dict/list/bytes/UUID cases of the source are not needed by any claim and
are omitted; date, time and datetime values carry an opaque integer. -/
inductive PyVal where
  | int (n : ℤ)
  | float (q : ℚ)
  | str (s : Str)
  | bool (b : Bool)
  | pydate (d : ℤ)
  | pytime (t : ℤ)
  | pydatetime (t : ℤ)
  | none
  deriving DecidableEq, Repr

/-- A Python dict row: an insertion-ordered association list with unique
keys. -/
abbrev Row := List (Str × PyVal)

/-- Dictionary lookup row.get(k) / row[k]: first binding of the key. -/
def lookupRow : Row → Str → Option PyVal
  | [], _ => Option.none
  | (k2, v) :: rest, k => if k2 = k then some v else lookupRow rest k

/-- The dict comprehension of check_duplicate_rows and of the removal loops
in insert_rows: project a row onto the given columns, in column order,
keeping only keys the row has.  (In the removal loops the source indexes
row[k] unconditionally; every claim input carries all its columns, so the
missing-key KeyError is not modelled.) -/
def filterCols (row : Row) (columns : List Str) : Row :=
  columns.filterMap (fun k => (lookupRow row k).map (fun v => (k, v)))

/-- Lexicographic order on strings by code point, the order in which
json.dumps with sort_keys=True emits keys. -/
def strLt : Str → Str → Bool
  | [], [] => false
  | [], _ :: _ => true
  | _ :: _, [] => false
  | a :: xs, b :: ys => if a.val < b.val then true else if b.val < a.val then false else strLt xs ys

/-- Insertion step of the key sort. -/
def insertSorted (p : Str × PyVal) : Row → Row
  | [] => [p]
  | q :: rest => if strLt q.1 p.1 then q :: insertSorted p rest else p :: q :: rest

/-- Sorting a projected row by key, modelling json.dumps(. , sort_keys=True);
serialized-text equality of two such dicts is equality of the sorted pair
lists. -/
def sortRow : Row → Row
  | [] => []
  | p :: rest => insertSorted p (sortRow rest)

/-- Counting occurrences of each row key in first-occurrence order, the
duplicate_rows dict of check_duplicate_rows.  (The source first converts
dict/list/datetime/UUID cells to canonical strings; that conversion is
injective and the claims only use int and str cells, so it is the
identity here.) -/
def tallyKeys (acc : List (Row × Nat)) (key : Row) : List (Row × Nat) :=
  if acc.any (fun kc => decide (kc.1 = key)) then
    acc.map (fun kc => if kc.1 = key then (kc.1, kc.2 + 1) else kc)
  else acc ++ [(key, 1)]

/-- The serialized duplicate-detection key of one row in
check_duplicate_rows: the projection onto the given columns with sorted
keys, or nothing when the projection is empty (the source's continue). -/
def rowKey (columns : List Str) (row : Row) : Option Row :=
  match filterCols row columns with
  | [] => Option.none
  | f => some (sortRow f)

/-- PostgresManager.check_duplicate_rows continued: count the keys, and
return whether any key repeated together with the repeated keys.  The
source's boolean is set exactly when some count exceeds one. -/
def check_duplicate_rows (rows : List Row) (columns : List Str) : Bool × List Row :=
  let keys := rows.filterMap (rowKey columns)
  let counts := keys.foldl tallyKeys []
  let flagged := (counts.filter (fun kc => 1 < kc.2)).map (·.1)
  (¬flagged = [], flagged)

/-- The duplicate_rows collection loop of insert_rows: for every flagged key,
every row whose unsorted projection serializes equal to the (sorted) key. -/
def collectDupRows (rows : List Row) (columns : List Str) (flagged : List Row) : List Row :=
  flagged.foldl (fun acc key => acc ++ rows.filter (fun row => decide (filterCols row columns = key))) []

/-- Python list.remove: delete the first element equal to the value (the
source only removes rows it just collected from the list, so the
ValueError branch for a missing element is unreachable). -/
def pyRemove : List Row → Row → List Row
  | [], _ => []
  | r :: rest, x => if r = x then rest else r :: pyRemove rest x

/-- The removal loop: rows.remove(row) for each collected row. -/
def removeRows (rows toRemove : List Row) : List Row :=
  toRemove.foldl pyRemove rows

/-- One duplicate-filter pass of insert_rows (used once with the full column
set and once with the primary-key columns). -/
def dedupPass (rows : List Row) (columns : List Str) : List Row :=
  let cd := check_duplicate_rows rows columns
  if cd.1 then removeRows rows (collectDupRows rows columns cd.2) else rows

/-- PostgresManager.get_all_columns: extend the column list with keys found
in rows (in encounter order) and report whether every row already had exactly
the column list as its key list. -/
def getAllColumns (rows : List Row) (columns : List Str) : List Str × Bool :=
  rows.foldl
    (fun acc row =>
      if row.map (·.1) = acc.1 then acc
      else (acc.1 ++ (row.map (·.1)).filter (fun k => k ∉ acc.1), false))
    (columns, true)

/-- The second half of get_all_columns: set row[col] = None for every column
a row is missing, in column order. -/
def addMissingCols (rows : List Row) (columns : List Str) : List Row :=
  rows.map (fun row => row ++ (columns.filter (fun c => c ∉ row.map (·.1))).map (fun c => (c, PyVal.none)))

/-- The value preparation of insert_rows for dict rows: row.get(col), with
empty strings converted to None (dict/list cells, absent from PyVal, would
become JSON text). -/
def prepareRow (columns : List Str) (row : Row) : List PyVal :=
  columns.map (fun col =>
    match lookupRow row col with
    | some v => if v = PyVal.str [] then PyVal.none else v
    | Option.none => PyVal.none)

/-- The ValueError raised by validate_identifier, the specification's
InvalidInput failure; it escapes insert_rows because the table name is
validated before the try block. -/
inductive IdentErr where
  | invalidInput
  deriving DecidableEq, Repr

/-- The database's side of one insert_rows call: the table's primary key as
get_table_primary_key would report it, and whether statement execution
raises a caught driver error (with its message). -/
structure DBOracle where
  primaryKey : Str → Option (List Str)
  execError : Option Str

/-- The Python return value of insert_rows: a bare boolean, or the
(success, error message) pair when return_error_msg is set. -/
inductive PyRet where
  | asBool (b : Bool)
  | asPair (b : Bool) (msg : Option Str)
  deriving DecidableEq, Repr

/-- What one insert_rows call did: the success flag, the error message, the
prepared parameter tuples handed to the INSERT statement, the final state of
the caller's rows list (the source's duplicate-filter passes run
rows.remove(row) on the very list object the caller handed in, so the caller
observes this list afterwards), and the value the call returns. -/
structure InsertOutcome where
  success : Bool
  errorMsg : Option Str
  sent : List (List PyVal)
  rowsAfter : List Row
  ret : PyRet
  deriving DecidableEq, Repr

/-- Packs a result of insert_rows: the Python return value is the pair
(success, message) when return_error_msg is set and the bare boolean
otherwise. -/
def mkOutcome (return_error_msg : Bool) (success : Bool) (msg : Option Str)
    (sent : List (List PyVal)) (rowsAfter : List Row) : InsertOutcome :=
  ⟨success, msg, sent, rowsAfter,
   if return_error_msg then .asPair success msg else .asBool success⟩

/-- PostgresManager.insert_rows for dict rows (contains_dicts=True, the form
every caller in the claims uses): validate the table name before the try
block (an invalid name raises, regardless of return_error_msg), filter
exact-duplicate rows by full column set, then by primary-key columns (a
no-op when the table has none), normalize the column set, validate column
names, handle the upsert-without-primary-key refusal, validate primary-key
columns when upserting, and execute; every failure inside the try block is
caught and converted into a False return (or a (False, message) pair under
return_error_msg).  The duplicate filters call rows.remove(row) on the
caller's own list object, so the outcome also records the rows list as the
caller observes it after the call. -/
def insert_rows (db : DBOracle) (target_table : Str) (columns : List Str)
    (rows : List Row) (update return_error_msg : Bool) : Except IdentErr InsertOutcome :=
  if ¬validIdent target_table then .error .invalidInput
  else
    let rows1 := dedupPass rows columns
    let pk := db.primaryKey target_table
    let rows2 := dedupPass rows1 (pk.getD [])
    let ca := getAllColumns rows2 columns
    let columns2 := ca.1
    let rows3 := if ca.2 then rows2 else addMissingCols rows2 columns2
    if ¬columns2.all validIdent then
      .ok (mkOutcome return_error_msg false (some (pyStr "Unexpected error inserting rows")) [] rows3)
    else if update && decide (pk = Option.none) then
      .ok (mkOutcome return_error_msg false
        (some (pyStr "Cannot perform upsert - no primary key defined")) [] rows3)
    else if update && ¬(pk.getD []).all validIdent then
      .ok (mkOutcome return_error_msg false (some (pyStr "Unexpected error inserting rows")) [] rows3)
    else
      match db.execError with
      | Option.none =>
        .ok (mkOutcome return_error_msg true Option.none (rows3.map (prepareRow columns2)) rows3)
      | some m =>
        .ok (mkOutcome return_error_msg false (some m) (rows3.map (prepareRow columns2)) rows3)

/-! ## Claims about insert_rows -/

/-- C8: a syntactically unsafe table name makes insert_rows raise the
InvalidInput error before any database interaction (the conclusion holds for
every oracle and both values of the message flag), while with a valid table
name every other failure mode is caught: the call always returns a value. -/
theorem insert_rows_invalid_table_raises
    (db : DBOracle) (t : Str) (columns : List Str) (rows : List Row) (update rem : Bool) :
    (validIdent t = false →
      insert_rows db t columns rows update rem = .error .invalidInput) ∧
    (validIdent t = true →
      ∃ out, insert_rows db t columns rows update rem = .ok out) := by
  constructor
  · intro hv
    simp [insert_rows, hv]
  · intro hv
    simp only [insert_rows, hv]
    rw [if_neg (by simp)]
    split
    · exact ⟨_, rfl⟩
    split
    · exact ⟨_, rfl⟩
    split
    · exact ⟨_, rfl⟩
    cases db.execError
    · exact ⟨_, rfl⟩
    · exact ⟨_, rfl⟩

/-- Witness for C8 at the SQL keyword "drop" (first part), the safe name
"teams", and the name "select" with a trailing newline, which the source's
anchored regex accepts (the dollar matches before the final newline) and
whose keyword comparison sees the newline, so no error is raised (second
part). -/
theorem insert_rows_invalid_table_raises_witness :
    (insert_rows ⟨fun _ => Option.none, Option.none⟩ (pyStr "drop") [] [] false false
      = .error .invalidInput) ∧
    (∃ out, insert_rows ⟨fun _ => Option.none, Option.none⟩ (pyStr "teams") [] [] false true
      = .ok out) ∧
    (∃ out, insert_rows ⟨fun _ => Option.none, Option.none⟩ (pyStr "select\n") [] [] false false
      = .ok out) :=
  ⟨(insert_rows_invalid_table_raises _ _ _ _ _ _).1 (by decide),
   (insert_rows_invalid_table_raises _ _ _ _ _ _).2 (by decide),
   (insert_rows_invalid_table_raises _ _ _ _ _ _).2 (by decide)⟩

/-! ## PostgresManager.determine_column_type -/

/-- The runtime type tag of a cell value (Python type(value)). -/
inductive PyType where
  | intT
  | floatT
  | strT
  | boolT
  | dateT
  | timeT
  | datetimeT
  | noneT
  deriving DecidableEq, Repr

/-- type(value) for the modelled values. -/
def typeTag : PyVal → PyType
  | .int _ => .intT
  | .float _ => .floatT
  | .str _ => .strT
  | .bool _ => .boolT
  | .pydate _ => .dateT
  | .pytime _ => .timeT
  | .pydatetime _ => .datetimeT
  | .none => .noneT

/-- The single-type dispatch table type_map of determine_column_type,
restricted to the modelled types (bytes, UUID, dict and list never occur in
a PyVal); lookups outside the table default to TEXT. -/
def typeMapGet : PyType → String
  | .strT => "TEXT"
  | .floatT => "REAL"
  | .boolT => "BOOLEAN"
  | .datetimeT => "TIMESTAMP"
  | .dateT => "DATE"
  | .timeT => "TIME"
  | _ => "TEXT"

/-- Python max over a non-empty integer list (0 on the empty list, which the
source never reaches because the list of values of the single encountered
type is non-empty). -/
def intMax : List ℤ → ℤ
  | [] => 0
  | x :: xs => xs.foldl max x

/-- Python min over a non-empty integer list, as intMax. -/
def intMin : List ℤ → ℤ
  | [] => 0
  | x :: xs => xs.foldl min x

/-- The integer payloads of a value list. -/
def intOf : PyVal → Option ℤ
  | .int n => some n
  | _ => Option.none

/-- PostgresManager.determine_column_type: drop absent values, collect the
set of encountered runtime types, and choose the PostgreSQL column type:
TEXT for no non-absent values; for a single type, range-sized integer types
for int and the type_map entry otherwise; for several types, the most
encompassing of REAL / TEXT / TIMESTAMP / DATE / TIME by subset tests. -/
def determine_column_type (values : List PyVal) : String :=
  let nonNone := values.filter (fun v => decide (v ≠ PyVal.none))
  let encountered := pyDedup (nonNone.map typeTag)
  match encountered with
  | [] => "TEXT"
  | [t] =>
    if t = PyType.intT then
      let ints := nonNone.filterMap intOf
      let maxV := intMax ints
      let minV := intMin ints
      if -32768 ≤ minV ∧ minV ≤ 32767 ∧ maxV ≤ 32767 then "SMALLINT"
      else if -2147483648 ≤ minV ∧ minV ≤ 2147483647 ∧ maxV ≤ 2147483647 then "INTEGER"
      else "BIGINT"
    else typeMapGet t
  | _ :: _ :: _ =>
    if encountered.all (· ∈ [PyType.intT, PyType.floatT]) then "REAL"
    else if encountered.all (· ∈ [PyType.strT, PyType.intT, PyType.floatT]) then "TEXT"
    else if encountered.all (· ∈ [PyType.datetimeT, PyType.strT]) then "TIMESTAMP"
    else if encountered.all (· ∈ [PyType.dateT, PyType.strT]) then "DATE"
    else if encountered.all (· ∈ [PyType.timeT, PyType.strT]) then "TIME"
    else "TEXT"

theorem foldl_max_bound (x : ℤ) (xs : List ℤ) :
    x ≤ xs.foldl max x ∧ ∀ y ∈ xs, y ≤ xs.foldl max x := by
  induction xs generalizing x with
  | nil => simp
  | cons z zs ih =>
    refine ⟨le_trans (le_max_left x z) (ih (max x z)).1, ?_⟩
    intro y hy
    rcases List.mem_cons.mp hy with rfl | hy
    · exact le_trans (le_max_right x y) (ih (max x y)).1
    · exact (ih (max x z)).2 y hy

theorem foldl_max_mem (x : ℤ) (xs : List ℤ) :
    xs.foldl max x = x ∨ xs.foldl max x ∈ xs := by
  induction xs generalizing x with
  | nil => simp
  | cons z zs ih =>
    rcases ih (max x z) with h | h
    · rcases max_choice x z with hm | hm
      · simp only [List.foldl_cons]
        rw [h, hm]
        exact Or.inl rfl
      · simp only [List.foldl_cons]
        rw [h, hm]
        exact Or.inr (List.mem_cons_self z zs)
    · exact Or.inr (List.mem_cons_of_mem z h)

theorem foldl_min_bound (x : ℤ) (xs : List ℤ) :
    xs.foldl min x ≤ x ∧ ∀ y ∈ xs, xs.foldl min x ≤ y := by
  induction xs generalizing x with
  | nil => simp
  | cons z zs ih =>
    refine ⟨le_trans (ih (min x z)).1 (min_le_left x z), ?_⟩
    intro y hy
    rcases List.mem_cons.mp hy with rfl | hy
    · exact le_trans (ih (min x y)).1 (min_le_right x y)
    · exact (ih (min x z)).2 y hy

theorem foldl_min_mem (x : ℤ) (xs : List ℤ) :
    xs.foldl min x = x ∨ xs.foldl min x ∈ xs := by
  induction xs generalizing x with
  | nil => simp
  | cons z zs ih =>
    rcases ih (min x z) with h | h
    · rcases min_choice x z with hm | hm
      · simp only [List.foldl_cons]
        rw [h, hm]
        exact Or.inl rfl
      · simp only [List.foldl_cons]
        rw [h, hm]
        exact Or.inr (List.mem_cons_self z zs)
    · exact Or.inr (List.mem_cons_of_mem z h)

theorem mem_pyDedupAux {α : Type} [DecidableEq α] (l : List α) :
    ∀ (seen : List α) (x : α), x ∈ pyDedupAux seen l ↔ x ∈ l ∧ x ∉ seen := by
  induction l with
  | nil => intro seen x; simp [pyDedupAux]
  | cons y ys ih =>
    intro seen x
    by_cases hy : y ∈ seen
    · simp only [pyDedupAux, if_pos hy, ih]
      constructor
      · rintro ⟨h1, h2⟩
        exact ⟨List.mem_cons_of_mem y h1, h2⟩
      · rintro ⟨h1, h2⟩
        rcases List.mem_cons.mp h1 with rfl | h1
        · exact absurd hy h2
        · exact ⟨h1, h2⟩
    · simp only [pyDedupAux, if_neg hy, List.mem_cons, ih]
      constructor
      · rintro (rfl | ⟨h1, h2⟩)
        · exact ⟨Or.inl rfl, hy⟩
        · refine ⟨Or.inr h1, fun hc => h2 (List.mem_append_left _ hc)⟩
      · rintro ⟨rfl | h1, h2⟩
        · exact Or.inl rfl
        · by_cases hxy : x = y
          · exact Or.inl hxy
          · refine Or.inr ⟨h1, fun hc => ?_⟩
            rcases List.mem_append.mp hc with hc | hc
            · exact h2 hc
            · simp at hc
              exact hxy hc

theorem mem_pyDedup {α : Type} [DecidableEq α] (l : List α) (x : α) :
    x ∈ pyDedup l ↔ x ∈ l := by
  simp [pyDedup, mem_pyDedupAux]

theorem pyDedupAux_all_eq {α : Type} [DecidableEq α] (a : α) (l : List α)
    (h : ∀ x ∈ l, x = a) : ∀ seen, a ∈ seen → pyDedupAux seen l = [] := by
  induction l with
  | nil => intro seen _; rfl
  | cons y ys ih =>
    intro seen ha
    have hy : y = a := h y (List.mem_cons_self y ys)
    simp only [pyDedupAux, hy, if_pos ha]
    exact ih (fun x hx => h x (List.mem_cons_of_mem y hx)) seen ha

theorem pyDedup_all_eq {α : Type} [DecidableEq α] (a : α) (l : List α)
    (h : ∀ x ∈ l, x = a) (hne : l ≠ []) : pyDedup l = [a] := by
  match l with
  | [] => exact absurd rfl hne
  | y :: ys =>
    have hy : y = a := h y (List.mem_cons_self y ys)
    subst hy
    simp only [pyDedup, pyDedupAux, List.not_mem_nil, if_neg (List.not_mem_nil y)]
    rw [if_neg (by simp), List.nil_append,
      pyDedupAux_all_eq y ys (fun x hx => h x (List.mem_cons_of_mem y hx)) [y]
        (List.mem_singleton_self y)]

/-- C5: determine_column_type sizes all-integer columns by observed range
(the code's min/max window tests are equivalent to every value fitting the
range), maps a genuine int/float mix to REAL, maps an all-absent column to
TEXT, and in particular returns SMALLINT on [100, 200, 32000] and INTEGER
on [100, 40000]. -/
theorem determine_column_type_spec :
    (∀ values : List PyVal,
      values.filter (fun v => decide (v ≠ PyVal.none)) ≠ [] →
      (∀ v ∈ values, v = PyVal.none ∨ ∃ n, v = PyVal.int n) →
      determine_column_type values =
        (if ∀ n ∈ (values.filter (fun v => decide (v ≠ PyVal.none))).filterMap intOf,
              -32768 ≤ n ∧ n ≤ 32767 then "SMALLINT"
         else if ∀ n ∈ (values.filter (fun v => decide (v ≠ PyVal.none))).filterMap intOf,
              -2147483648 ≤ n ∧ n ≤ 2147483647 then "INTEGER"
         else "BIGINT")) ∧
    (∀ values : List PyVal,
      (∃ v ∈ values, ∃ n, v = PyVal.int n) →
      (∃ v ∈ values, ∃ q, v = PyVal.float q) →
      (∀ v ∈ values, v = PyVal.none ∨ (∃ n, v = PyVal.int n) ∨ (∃ q, v = PyVal.float q)) →
      determine_column_type values = "REAL") ∧
    (∀ values : List PyVal, values ≠ [] → (∀ v ∈ values, v = PyVal.none) →
      determine_column_type values = "TEXT") ∧
    determine_column_type [PyVal.int 100, PyVal.int 200, PyVal.int 32000] = "SMALLINT" ∧
    determine_column_type [PyVal.int 100, PyVal.int 40000] = "INTEGER" := by
  refine ⟨?_, ?_, ?_, by decide, by decide⟩
  · intro values hne hint
    have hvals : ∀ v ∈ values.filter (fun v => decide (v ≠ PyVal.none)), ∃ n, v = PyVal.int n := by
      intro v hv
      have hm := List.mem_filter.mp hv
      rcases hint v hm.1 with rfl | h
      · simp at hm
      · exact h
    have henc : pyDedup ((values.filter (fun v => decide (v ≠ PyVal.none))).map typeTag)
        = [PyType.intT] := by
      apply pyDedup_all_eq
      · intro x hx
        rcases List.mem_map.mp hx with ⟨v, hv, rfl⟩
        rcases hvals v hv with ⟨n, rfl⟩
        rfl
      · simpa using hne
    have hints : ∀ v ∈ values.filter (fun v => decide (v ≠ PyVal.none)),
        ∃ n, intOf v = some n := by
      intro v hv
      rcases hvals v hv with ⟨n, rfl⟩
      exact ⟨n, rfl⟩
    have hilen : (values.filter (fun v => decide (v ≠ PyVal.none))).filterMap intOf ≠ [] := by
      rcases List.exists_cons_of_ne_nil hne with ⟨v0, vrest, hv0⟩
      rcases hints v0 (hv0 ▸ List.mem_cons_self v0 vrest) with ⟨n0, hn0⟩
      intro hc
      have : n0 ∈ (values.filter (fun v => decide (v ≠ PyVal.none))).filterMap intOf :=
        List.mem_filterMap.mpr ⟨v0, hv0 ▸ List.mem_cons_self v0 vrest, hn0⟩
      rw [hc] at this
      exact List.not_mem_nil n0 this
    set ints := (values.filter (fun v => decide (v ≠ PyVal.none))).filterMap intOf with hints_def
    rcases List.exists_cons_of_ne_nil hilen with ⟨i0, irest, hi⟩
    have hmax_eq : intMax ints = irest.foldl max i0 := by rw [hi]; rfl
    have hmin_eq : intMin ints = irest.foldl min i0 := by rw [hi]; rfl
    have hmax_ub : ∀ n ∈ ints, n ≤ intMax ints := by
      intro n hn
      rw [hmax_eq]
      rw [hi] at hn
      rcases List.mem_cons.mp hn with rfl | hn
      · exact (foldl_max_bound n irest).1
      · exact (foldl_max_bound i0 irest).2 n hn
    have hmin_lb : ∀ n ∈ ints, intMin ints ≤ n := by
      intro n hn
      rw [hmin_eq]
      rw [hi] at hn
      rcases List.mem_cons.mp hn with rfl | hn
      · exact (foldl_min_bound n irest).1
      · exact (foldl_min_bound i0 irest).2 n hn
    have hmax_mem : intMax ints ∈ ints := by
      rw [hmax_eq]
      rcases foldl_max_mem i0 irest with h | h
      · rw [h, hi]; exact List.mem_cons_self i0 irest
      · rw [hi]; exact List.mem_cons_of_mem i0 h
    have hmin_mem : intMin ints ∈ ints := by
      rw [hmin_eq]
      rcases foldl_min_mem i0 irest with h | h
      · rw [h, hi]; exact List.mem_cons_self i0 irest
      · rw [hi]; exact List.mem_cons_of_mem i0 h
    simp only [determine_column_type, henc, ← hints_def]
    by_cases h16 : ∀ n ∈ ints, -32768 ≤ n ∧ n ≤ 32767
    · rw [if_pos h16,
        if_pos (show -32768 ≤ intMin ints ∧ intMin ints ≤ 32767 ∧ intMax ints ≤ 32767 from
          ⟨(h16 _ hmin_mem).1, (h16 _ hmin_mem).2, (h16 _ hmax_mem).2⟩)]
      simp
    · have hc16 : ¬(-32768 ≤ intMin ints ∧ intMin ints ≤ 32767 ∧ intMax ints ≤ 32767) := by
        intro ⟨ha, _, hc⟩
        exact h16 (fun n hn => ⟨le_trans ha (hmin_lb n hn), le_trans (hmax_ub n hn) hc⟩)
      rw [if_neg h16, if_neg hc16]
      by_cases h32 : ∀ n ∈ ints, -2147483648 ≤ n ∧ n ≤ 2147483647
      · rw [if_pos h32,
          if_pos (show -2147483648 ≤ intMin ints ∧ intMin ints ≤ 2147483647 ∧
              intMax ints ≤ 2147483647 from
            ⟨(h32 _ hmin_mem).1, (h32 _ hmin_mem).2, (h32 _ hmax_mem).2⟩)]
        simp
      · have hc32 : ¬(-2147483648 ≤ intMin ints ∧ intMin ints ≤ 2147483647 ∧
            intMax ints ≤ 2147483647) := by
          intro ⟨ha, _, hc⟩
          exact h32 (fun n hn => ⟨le_trans ha (hmin_lb n hn), le_trans (hmax_ub n hn) hc⟩)
        rw [if_neg h32, if_neg hc32]
        simp
  · intro values ⟨vi, hvi, ni, hvieq⟩ ⟨vf, hvf, qf, hvfeq⟩ hall
    subst hvieq
    subst hvfeq
    have hmi : PyType.intT ∈ pyDedup ((values.filter (fun v => decide (v ≠ PyVal.none))).map typeTag) := by
      rw [mem_pyDedup]
      exact List.mem_map.mpr ⟨PyVal.int ni, List.mem_filter.mpr ⟨hvi, by simp⟩, rfl⟩
    have hmf : PyType.floatT ∈ pyDedup ((values.filter (fun v => decide (v ≠ PyVal.none))).map typeTag) := by
      rw [mem_pyDedup]
      exact List.mem_map.mpr ⟨PyVal.float qf, List.mem_filter.mpr ⟨hvf, by simp⟩, rfl⟩
    have hsub : ∀ x ∈ pyDedup ((values.filter (fun v => decide (v ≠ PyVal.none))).map typeTag),
        x ∈ [PyType.intT, PyType.floatT] := by
      intro x hx
      rw [mem_pyDedup] at hx
      rcases List.mem_map.mp hx with ⟨v, hv, rfl⟩
      have hm := List.mem_filter.mp hv
      rcases hall v hm.1 with rfl | ⟨n, rfl⟩ | ⟨q, rfl⟩
      · simp at hm
      · exact List.mem_cons_self _ _
      · exact List.mem_cons_of_mem _ (List.mem_cons_self _ _)
    cases hE : pyDedup ((values.filter (fun v => decide (v ≠ PyVal.none))).map typeTag) with
    | nil =>
      rw [hE] at hmi
      exact absurd hmi (List.not_mem_nil _)
    | cons e1 tl =>
      cases tl with
      | nil =>
        rw [hE] at hmi hmf
        have h1 : PyType.intT = e1 := by simpa using hmi
        have h2 : PyType.floatT = e1 := by simpa using hmf
        rw [← h1] at h2
        exact absurd h2 (by decide)
      | cons e2 tl2 =>
        have hall2 : (e1 :: e2 :: tl2).all (· ∈ [PyType.intT, PyType.floatT]) = true := by
          rw [List.all_eq_true]
          intro x hx
          have := hsub x (hE ▸ hx)
          simpa using this
        simp only [determine_column_type, hE, hall2, if_true]
  · intro values hne hall
    have hfilter : values.filter (fun v => decide (v ≠ PyVal.none)) = [] := by
      rw [List.filter_eq_nil_iff]
      intro v hv
      rw [hall v hv]
      simp
    simp only [determine_column_type, hfilter, List.map_nil]
    rfl

/-- Witness for C5 at the list [5, absent]. -/
theorem determine_column_type_spec_witness :
    determine_column_type [PyVal.int 5, PyVal.none] = "SMALLINT" := by
  have h := determine_column_type_spec.1 [PyVal.int 5, PyVal.none] (by decide)
    (by
      intro v hv
      rcases List.mem_cons.mp hv with rfl | hv
      · exact Or.inr ⟨5, rfl⟩
      · have : v = PyVal.none := by simpa using hv
        exact Or.inl this)
  rw [h]
  decide

/-! ## mg/etl/hermes : shared cartographer pieces -/

/-- How a mapping was produced, the method field of the log_info blob; the
fuzzy methods carry the similarity score the source also logs. -/
inductive MatchMethod where
  | cacheHit
  | exactName
  | alternateName
  | abbreviation
  | location
  | mascot
  | tokenOverlap
  | fuzzy (similarity : ℚ)
  | exactNameFiltered
  | fuzzyName (similarity : ℚ)
  deriving DecidableEq, Repr

/-- One pending mapping row queued by Cartographer._add_mapping. -/
structure MappingRow where
  data_source : Str
  data_source_id : Str
  entity_id : ℕ
  confidence_rating : ℤ
  log_method : MatchMethod
  deriving DecidableEq, Repr

/-- The columns of the source-map upsert in Cartographer.save. -/
def mappingColumns : List Str :=
  [pyStr "data_source", pyStr "data_source_id", pyStr "entity_id",
   pyStr "confidence_rating", pyStr "log_info"]

/-- Model of json.dumps(log_info): the method tag as text (the claims never
inspect the serialized blob). -/
def logInfoStr : MatchMethod → Str
  | .cacheHit => pyStr "cache"
  | .exactName => pyStr "exact_name"
  | .alternateName => pyStr "alternate_name"
  | .abbreviation => pyStr "abbreviation"
  | .location => pyStr "location"
  | .mascot => pyStr "mascot"
  | .tokenOverlap => pyStr "token_overlap"
  | .fuzzy _ => pyStr "fuzzy"
  | .exactNameFiltered => pyStr "exact_name_filtered"
  | .fuzzyName _ => pyStr "fuzzy_name"

/-- The dict row Cartographer.save hands to insert_rows for one pending
mapping. -/
def rowOfMapping (m : MappingRow) : Row :=
  [(pyStr "data_source", PyVal.str m.data_source),
   (pyStr "data_source_id", PyVal.str m.data_source_id),
   (pyStr "entity_id", PyVal.int (m.entity_id : ℤ)),
   (pyStr "confidence_rating", PyVal.int m.confidence_rating),
   (pyStr "log_info", PyVal.str (logInfoStr m.log_method))]

/-- What one Cartographer.save call did: the boolean it returns, the pending
queue afterwards (the dict rows of _pending, the very list save hands to
insert_rows), whether the source-map table had to be created first, and the
insert_rows call it made (nothing when the queue was empty). -/
structure SaveResult where
  ret : Bool
  pending : List Row
  createdTable : Bool
  insertCall : Option InsertOutcome
  deriving DecidableEq, Repr

/-- Cartographer.save: nothing to do on an empty queue (returns True without
touching the database); otherwise create the source-map table if missing,
upsert the pending rows through insert_rows (update=True, dict rows), clear
the queue only when the insert reports success, and return the insert's
boolean.  save passes self._pending itself - not a copy - to insert_rows,
whose duplicate filters run rows.remove(row) on that list object, so on
failure the queue afterwards is the list as insert_rows' removals left it
(out.rowsAfter), not necessarily the original.  An invalid table name would
propagate, but every concrete table name of the cartographers is validated in
the constructor. -/
def cartSave (tableExists : Bool) (db : DBOracle) (table : Str)
    (pending : List Row) : Except IdentErr SaveResult :=
  if pending = [] then .ok ⟨true, pending, false, Option.none⟩
  else
    let created := ¬tableExists
    match insert_rows db table mappingColumns pending true false with
    | .error e => .error e
    | .ok out =>
      if out.success then .ok ⟨true, [], created, some out⟩
      else .ok ⟨false, out.rowsAfter, created, some out⟩

/-- The pending queue of the C4 counterexample: two mappings sharing
(data_source, data_source_id) - the source map's primary key, here with the
empty data_source_id under which _add_mapping never caches - plus one
distinct mapping. -/
def c4Pending : List Row :=
  [rowOfMapping ⟨pyStr "vendor", [], 1, 100, .exactName⟩,
   rowOfMapping ⟨pyStr "vendor", [], 2, 100, .exactName⟩,
   rowOfMapping ⟨pyStr "vendor", pyStr "id3", 3, 100, .exactName⟩]

/-- The database oracle of the C4 counterexample: the source map is keyed by
(data_source, data_source_id) and statement execution fails. -/
def c4Db : DBOracle :=
  ⟨fun _ => some [pyStr "data_source", pyStr "data_source_id"], some (pyStr "boom")⟩

/-- C4 counterexample: a failed save on a three-row queue whose first two
rows share the primary key (data_source, data_source_id) returns failure but
leaves the queue holding ONLY the third row: insert_rows' primary-key
duplicate filter removed both duplicates from the caller's list in place
before the execution error, so the queue is not left intact for retry. -/
theorem cartographer_save_mutated_queue_cx :
    cartSave true c4Db (pyStr "team_source_map") c4Pending
      = .ok ⟨false, [rowOfMapping ⟨pyStr "vendor", pyStr "id3", 3, 100, .exactName⟩], false,
          some ⟨false, some (pyStr "boom"),
            [[PyVal.str (pyStr "vendor"), PyVal.str (pyStr "id3"), PyVal.int 3,
              PyVal.int 100, PyVal.str (pyStr "exact_name")]],
            [rowOfMapping ⟨pyStr "vendor", pyStr "id3", 3, 100, .exactName⟩],
            .asBool false⟩⟩ ∧
    ¬([rowOfMapping ⟨pyStr "vendor", pyStr "id3", 3, 100, .exactName⟩] = c4Pending) := by
  decide

/-- When neither duplicate filter of insert_rows fires and every row already
carries exactly the given column list, the call leaves the caller's rows
list unchanged. -/
theorem insert_rows_rowsAfter_nodup
    (db : DBOracle) (t : Str) (columns : List Str) (rows : List Row)
    (update rem : Bool) (out : InsertOutcome)
    (h : insert_rows db t columns rows update rem = .ok out)
    (h1 : (check_duplicate_rows rows columns).1 = false)
    (h2 : (check_duplicate_rows rows ((db.primaryKey t).getD [])).1 = false)
    (h3 : (getAllColumns rows columns).2 = true) :
    out.rowsAfter = rows := by
  have e1 : dedupPass rows columns = rows := by
    simp [dedupPass, h1]
  have e2 : dedupPass rows ((db.primaryKey t).getD []) = rows := by
    simp [dedupPass, h2]
  simp only [insert_rows, e1, e2, h3, if_true] at h
  split at h
  · exact absurd h (by simp)
  repeat' split at h
  all_goals try (simp only [Except.ok.injEq] at h; subst h; simp [mkOutcome])

/-- C4 amended: save on an empty queue performs no insert and reports
success; on a non-empty queue it always attempts the insert; on success it
clears the queue and reports success; on failure it reports failure but the
queue afterwards is the list as insert_rows' in-place duplicate removals
left it - which equals the original queue exactly when no duplicate filter
fired (in particular, whenever the queue held no two rows sharing the
source map's primary key), and is missing rows otherwise. -/
theorem cartographer_save_queue_mutation (tableExists : Bool) (db : DBOracle) (table : Str)
    (pending : List Row) (res : SaveResult)
    (h : cartSave tableExists db table pending = .ok res) :
    (pending = [] → res.ret = true ∧ res.pending = pending ∧ res.insertCall = Option.none) ∧
    (pending ≠ [] → ∃ out, res.insertCall = some out) ∧
    (∀ out, res.insertCall = some out →
      (out.success = true → res.ret = true ∧ res.pending = []) ∧
      (out.success = false → res.ret = false ∧ res.pending = out.rowsAfter)) ∧
    (∀ out, res.insertCall = some out →
      (check_duplicate_rows pending mappingColumns).1 = false →
      (check_duplicate_rows pending ((db.primaryKey table).getD [])).1 = false →
      (getAllColumns pending mappingColumns).2 = true →
      out.rowsAfter = pending) := by
  unfold cartSave at h
  split at h
  · rename_i hemp
    have hres : res = ⟨true, pending, false, Option.none⟩ := by
      simpa using h.symm
    subst hres
    refine ⟨fun _ => ⟨rfl, rfl, rfl⟩, fun hne => absurd hemp hne, ?_, ?_⟩
    · intro out hout
      exact absurd hout (by simp)
    · intro out hout
      exact absurd hout (by simp)
  · rename_i hemp
    split at h
    · exact absurd h (by simp)
    · rename_i out0 hout0
      simp only [] at h
      by_cases hs : out0.success = true
      · rw [if_pos hs] at h
        have hres : res = ⟨true, [], !tableExists, some out0⟩ := by simpa using h.symm
        subst hres
        refine ⟨fun hc => absurd hc hemp, fun _ => ⟨out0, rfl⟩, ?_, ?_⟩
        · intro out hout
          have : out0 = out := by simpa using hout
          subst this
          exact ⟨fun _ => ⟨rfl, rfl⟩, fun hf => absurd hs (by simp [hf])⟩
        · intro out hout hc1 hc2 hc3
          have : out0 = out := by simpa using hout
          subst this
          exact insert_rows_rowsAfter_nodup db table mappingColumns pending
            true false out0 hout0 hc1 hc2 hc3
      · rw [if_neg hs] at h
        have hres : res = ⟨false, out0.rowsAfter, !tableExists, some out0⟩ := by
          simpa using h.symm
        subst hres
        refine ⟨fun hc => absurd hc hemp, fun _ => ⟨out0, rfl⟩, ?_, ?_⟩
        · intro out hout
          have : out0 = out := by simpa using hout
          subst this
          refine ⟨fun ht => absurd ht hs, fun _ => ⟨rfl, rfl⟩⟩
        · intro out hout hc1 hc2 hc3
          have : out0 = out := by simpa using hout
          subst this
          exact insert_rows_rowsAfter_nodup db table mappingColumns pending
            true false out0 hout0 hc1 hc2 hc3

/-- Witness for the C4 amended theorem at an empty queue. -/
theorem cartographer_save_queue_mutation_witness :
    (true : Bool) = true ∧ ([] : List Row) = [] ∧
      (Option.none : Option InsertOutcome) = Option.none :=
  (cartographer_save_queue_mutation true ⟨fun _ => Option.none, Option.none⟩
    (pyStr "team_source_map") [] ⟨true, [], false, Option.none⟩ rfl).1 rfl

/-! ## mg/etl/hermes/team.py : TeamCartographer -/

/-- A team entity row as loaded from the teams table; a missing or empty
field is the empty string, which is exactly how the source's
value-or-fallback chains treat it. -/
structure TeamEntity where
  team : Str
  teamname : Str
  team_name : Str
  alternate_names : List Str
  abbreviation : Str
  abbrevField : Str
  location : Str
  city : Str
  mascot : Str
  nickname : Str
  id : ℕ
  deriving DecidableEq, Repr

/-- team.get(name_column) or team.get("teamname") or "", with name_column at
its default value "team". -/
def teamName (e : TeamEntity) : Str := if e.team ≠ [] then e.team else e.teamname

/-- The sort key of _build_indices: t.get(name_column) or t.get("team_name")
or "" (note the different fallback key from teamName). -/
def teamSortKey (e : TeamEntity) : Str := if e.team ≠ [] then e.team else e.team_name

/-- Stable insertion into a list sorted by key (Python's stable sort places
an equal-key element after the existing ones). -/
def insertByKey (key : TeamEntity → Str) (e : TeamEntity) :
    List TeamEntity → List TeamEntity
  | [] => [e]
  | f :: rest => if strLt (key e) (key f) then e :: f :: rest else f :: insertByKey key e rest

/-- The entity sort at the top of _build_indices. -/
def sortTeams : List TeamEntity → List TeamEntity
  | [] => []
  | e :: rest => insertByKey teamSortKey e (sortTeams rest)

/-- Last-binding association lookup: a Python dict built by repeated
assignment keeps the last value written for a key. -/
def lastAssoc {α : Type} : List (Str × α) → Str → Option α
  | [], _ => Option.none
  | (k2, v) :: rest, k =>
    match lastAssoc rest k with
    | some r => some r
    | Option.none => if k2 = k then some v else Option.none

/-- The _by_normalized_name index in build order. -/
def teamIdxName (entities : List TeamEntity) : List (Str × TeamEntity) :=
  entities.filterMap (fun e =>
    if teamName e ≠ [] then some (strip_convert_to_lowercase (teamName e), e) else Option.none)

/-- The _team_tokens list: lowercased whitespace token sets of team names. -/
def teamTokens (entities : List TeamEntity) : List (List Str × TeamEntity) :=
  entities.filterMap (fun e =>
    if teamName e ≠ [] then some (pyDedup (splitWs ((teamName e).map Char.toLower)), e)
    else Option.none)

/-- The _by_alternate_name index. -/
def teamIdxAlt (entities : List TeamEntity) : List (Str × TeamEntity) :=
  entities.foldl (fun acc e =>
    acc ++ e.alternate_names.filterMap (fun a =>
      if a ≠ [] then some (strip_convert_to_lowercase a, e) else Option.none)) []

/-- The _by_abbreviation index (abbreviation or abbrev; the second source
key is spelled abbrevField here because abbrev is a Lean keyword). -/
def teamIdxAbbrev (entities : List TeamEntity) : List (Str × TeamEntity) :=
  entities.filterMap (fun e =>
    let ab := if e.abbreviation ≠ [] then e.abbreviation else e.abbrevField
    if ab ≠ [] then some (strip_convert_to_lowercase ab, e) else Option.none)

/-- The _by_location index (location or city). -/
def teamIdxLoc (entities : List TeamEntity) : List (Str × TeamEntity) :=
  entities.filterMap (fun e =>
    let lo := if e.location ≠ [] then e.location else e.city
    if lo ≠ [] then some (strip_convert_to_lowercase lo, e) else Option.none)

/-- The _by_mascot index (mascot or nickname). -/
def teamIdxMascot (entities : List TeamEntity) : List (Str × TeamEntity) :=
  entities.filterMap (fun e =>
    let ma := if e.mascot ≠ [] then e.mascot else e.nickname
    if ma ≠ [] then some (strip_convert_to_lowercase ma, e) else Option.none)

/-- TeamCartographer._match_by_tokens: require at least two input tokens,
then pick the candidate with the largest overlap of at least two, strictly
improving. -/
def matchByTokens (entities : List TeamEntity) (input : Str) : Option TeamEntity :=
  let itoks := pyDedup (splitWs (input.map Char.toLower))
  if itoks.length < 2 then Option.none
  else
    (teamTokens entities).foldl
      (fun best pair =>
        let overlap := (itoks.filter (fun t => t ∈ pair.1)).length
        if 2 ≤ overlap ∧ best.2 < overlap then (some pair.2, overlap) else best)
      ((Option.none : Option TeamEntity), 0) |>.1

/-- The fold of TeamCartographer._match_by_similarity, raising whatever
name_similarity raises. -/
def teamSimFold (threshold : ℚ) (input : Str) :
    List TeamEntity → Option TeamEntity × ℚ → Except SimErr (Option TeamEntity × ℚ)
  | [], best => .ok best
  | e :: rest, best =>
    if teamName e ≠ [] then
      match name_similarity input (teamName e) with
      | .error err => .error err
      | .ok s =>
        if best.2 < s ∧ threshold ≤ s then teamSimFold threshold input rest (some e, s)
        else teamSimFold threshold input rest best
    else teamSimFold threshold input rest best

/-- TeamCartographer._match_by_similarity over the (sorted) entity list. -/
def matchBySimilarity (entities : List TeamEntity) (threshold : ℚ) (input : Str) :
    Except SimErr (Option TeamEntity × ℚ) :=
  teamSimFold threshold input entities (Option.none, 0)

/-- The mutable pieces of a TeamCartographer that map touches. -/
structure TeamState where
  entities : List TeamEntity
  team_mapping : List (Str × Str)
  similarity_threshold : ℚ
  cache : List (Str × TeamEntity)
  pending : List MappingRow
  data_source : Str
  deriving Repr

/-- Cartographer._add_mapping for teams: overwrite the cache entry and queue
a mapping row (the data_source_id was already lowercased by map because
normalize_cache_keys is always true for teams). -/
def teamAdd (st : TeamState) (dsid : Str) (e : TeamEntity) (conf : ℤ)
    (m : MatchMethod) : TeamState :=
  { st with
    cache := st.cache ++ [(dsid, e)],
    pending := st.pending ++ [⟨st.data_source, dsid, e.id, conf, m⟩] }

/-- Python dict .get(name, name): the team_mapping aliasing step. -/
def dictGetD (l : List (Str × Str)) (k d : Str) : Str :=
  match lastAssoc l k with
  | some v => v
  | Option.none => d

/-- Python int(): truncation toward zero. -/
def pyInt (q : ℚ) : ℤ := if 0 ≤ q then ⌊q⌋ else -⌊-q⌋

/-- Python round(): nearest integer, ties to even. -/
def pyRound (q : ℚ) : ℤ :=
  if q - ⌊q⌋ < 1/2 then ⌊q⌋
  else if 1/2 < q - ⌊q⌋ then ⌊q⌋ + 1
  else if Even ⌊q⌋ then ⌊q⌋ else ⌊q⌋ + 1

/-- TeamCartographer.map: lowercase the source id, serve from cache, then
walk the ladder - exact normalized name (100), alternate name (98),
abbreviation (95), location (90), mascot (85), token overlap (80), fuzzy
similarity (int(similarity * 100)) - queueing a mapping row at the first
hit; the returned method tag mirrors the log_info method field.  Entities
are sorted exactly as _build_indices sorts them before indexing. -/
def teamMap (st : TeamState) (data_source_id : Str) (name : Option Str) :
    Except SimErr (Option TeamEntity × TeamState × Option MatchMethod) :=
  let dsid := data_source_id.map Char.toLower
  let sorted := sortTeams st.entities
  match (if dsid ≠ [] then lastAssoc st.cache dsid else Option.none) with
  | some e => .ok (some e, st, some .cacheHit)
  | Option.none =>
    match name with
    | Option.none => .ok (Option.none, st, Option.none)
    | some nm =>
      if nm = [] then .ok (Option.none, st, Option.none)
      else
        let mapped := dictGetD st.team_mapping nm nm
        let normalized := strip_convert_to_lowercase mapped
        match lastAssoc (teamIdxName sorted) normalized with
        | some t => .ok (some t, teamAdd st dsid t 100 .exactName, some .exactName)
        | Option.none =>
        match lastAssoc (teamIdxAlt sorted) normalized with
        | some t => .ok (some t, teamAdd st dsid t 98 .alternateName, some .alternateName)
        | Option.none =>
        match lastAssoc (teamIdxAbbrev sorted) normalized with
        | some t => .ok (some t, teamAdd st dsid t 95 .abbreviation, some .abbreviation)
        | Option.none =>
        match lastAssoc (teamIdxLoc sorted) normalized with
        | some t => .ok (some t, teamAdd st dsid t 90 .location, some .location)
        | Option.none =>
        match lastAssoc (teamIdxMascot sorted) normalized with
        | some t => .ok (some t, teamAdd st dsid t 85 .mascot, some .mascot)
        | Option.none =>
        match matchByTokens sorted mapped with
        | some t => .ok (some t, teamAdd st dsid t 80 .tokenOverlap, some .tokenOverlap)
        | Option.none =>
        match matchBySimilarity sorted st.similarity_threshold mapped with
        | .error err => .error err
        | .ok (some t, s) =>
          .ok (some t, teamAdd st dsid t (pyInt (s * 100)) (.fuzzy s), some (.fuzzy s))
        | .ok (Option.none, _) => .ok (Option.none, st, Option.none)

/-! ## mg/etl/hermes/player.py : PlayerCartographer -/

/-- A player entity row; a missing or empty field is the empty string. -/
structure PlayerEntity where
  fullname : Str
  full_name : Str
  firstname : Str
  first_name : Str
  lastname : Str
  last_name : Str
  team : Str
  team_abbrev : Str
  team_id : Str
  position : Str
  id : ℕ
  deriving DecidableEq, Repr

/-- PlayerCartographer._get_full_name: explicit full-name fields first, then
first+last concatenation, else nothing. -/
def getFullName (p : PlayerEntity) : Option Str :=
  if p.fullname ≠ [] then some p.fullname
  else if p.full_name ≠ [] then some p.full_name
  else
    let first := if p.firstname ≠ [] then p.firstname else p.first_name
    let last := if p.lastname ≠ [] then p.lastname else p.last_name
    if first ≠ [] ∧ last ≠ [] then some (first ++ [' '] ++ last) else Option.none

/-- player.get("lastname") or player.get("last_name"). -/
def playerLastName (p : PlayerEntity) : Str :=
  if p.lastname ≠ [] then p.lastname else p.last_name

/-- The _by_normalized_name index pairs in build order (a dict of lists:
lookups collect every binding of the key, in order). -/
def playerIdxName (entities : List PlayerEntity) : List (Str × PlayerEntity) :=
  entities.filterMap (fun p => (getFullName p).map (fun nm => (normalize_name nm, p)))

/-- Collect every binding of a key, a dict-of-lists lookup. -/
def collectAssoc {α : Type} (l : List (Str × α)) (k : Str) : List α :=
  (l.filter (fun pr => decide (pr.1 = k))).map (·.2)

/-- The _by_last_initial buckets in build order. -/
def playerIdxInitial (entities : List PlayerEntity) : List (Char × PlayerEntity) :=
  entities.filterMap (fun p =>
    match playerLastName p with
    | [] => Option.none
    | c :: _ => some (c.toLower, p))

/-- Lookup of one last-initial bucket. -/
def collectInitial (l : List (Char × PlayerEntity)) (c : Char) : List PlayerEntity :=
  (l.filter (fun pr => decide (pr.1 = c))).map (·.2)

/-- split_name_parts from mg/etl/lexis.py: strip suffixes, first word is the
first name, the remaining words joined by single spaces are the last name. -/
def split_name_parts (s : Str) : Str × Str :=
  let stripped := strip_suffix s
  let parts := splitWs stripped
  let first := match parts with | [] => [] | p :: _ => p
  let last := (parts.drop 1).foldl (fun acc p => acc ++ p ++ [' ']) []
  (first, last.dropLast)

/-- The position filter at the end of _filter_by_team_position. -/
def posFilter (cands : List PlayerEntity) (position : Str) : Option PlayerEntity :=
  if position ≠ [] then
    let pm := cands.filter (fun p => decide (p.position = position))
    if pm.length = 1 then pm.head? else Option.none
  else Option.none

/-- PlayerCartographer._filter_by_team_position: narrow by canonical team id
first, else by team name or abbreviation, returning early on a unique team
match, else fall through to the position filter over the narrowed (or, if
the team filter matched nothing, original) candidates. -/
def filterByTeamPosition (cands : List PlayerEntity) (team team_id position : Str) :
    Option PlayerEntity :=
  if team_id ≠ [] then
    let tm := cands.filter (fun p => decide (p.team_id = team_id))
    if tm.length = 1 then tm.head?
    else posFilter (if tm ≠ [] then tm else cands) position
  else if team ≠ [] then
    let tm := cands.filter (fun p => decide (p.team = team) || decide (p.team_abbrev = team))
    if tm.length = 1 then tm.head?
    else posFilter (if tm ≠ [] then tm else cands) position
  else posFilter cands position

/-- The fuzzy fold of PlayerCartographer.map step 4, skipping candidates
without a derivable full name. -/
def playerSimFold (threshold : ℚ) (input : Str) :
    List PlayerEntity → Option PlayerEntity × ℚ → Except SimErr (Option PlayerEntity × ℚ)
  | [], best => .ok best
  | p :: rest, best =>
    match getFullName p with
    | Option.none => playerSimFold threshold input rest best
    | some pn =>
      match name_similarity input pn with
      | .error err => .error err
      | .ok s =>
        if best.2 < s ∧ threshold ≤ s then playerSimFold threshold input rest (some p, s)
        else playerSimFold threshold input rest best

/-- The mutable pieces of a PlayerCartographer that map touches
(normalize_cache_keys is false for players, so cache keys are verbatim). -/
structure PlayerState where
  entities : List PlayerEntity
  similarity_threshold : ℚ
  cache : List (Str × PlayerEntity)
  pending : List MappingRow
  data_source : Str
  deriving Repr

/-- Cartographer._add_mapping for players. -/
def playerAdd (st : PlayerState) (dsid : Str) (p : PlayerEntity) (conf : ℤ)
    (m : MatchMethod) : PlayerState :=
  { st with
    cache := st.cache ++ [(dsid, p)],
    pending := st.pending ++ [⟨st.data_source, dsid, p.id, conf, m⟩] }

/-- PlayerCartographer.map: serve from cache; a unique exact normalized-name
hit maps with confidence 100; several exact hits go through the
team/position filter (95); no exact hit triggers the fuzzy search over the
last-initial bucket, narrowed by team id (else team name) when given,
recording int(similarity * 100); team, team_id and position are the empty
string when not supplied (Python None or empty are both falsy). -/
def playerMap (st : PlayerState) (data_source_id : Str) (name : Option Str)
    (team team_id position : Str) :
    Except SimErr (Option PlayerEntity × PlayerState × Option MatchMethod) :=
  match (if data_source_id ≠ [] then lastAssoc st.cache data_source_id else Option.none) with
  | some p => .ok (some p, st, some .cacheHit)
  | Option.none =>
    match name with
    | Option.none => .ok (Option.none, st, Option.none)
    | some nm =>
      if nm = [] then .ok (Option.none, st, Option.none)
      else
        if (collectAssoc (playerIdxName st.entities) (normalize_name nm)).length = 1 then
          match (collectAssoc (playerIdxName st.entities) (normalize_name nm)).head? with
          | some p =>
            .ok (some p, playerAdd st data_source_id p 100 .exactName, some .exactName)
          | Option.none => .ok (Option.none, st, Option.none)
        else if 1 < (collectAssoc (playerIdxName st.entities) (normalize_name nm)).length then
          match filterByTeamPosition (collectAssoc (playerIdxName st.entities) (normalize_name nm))
              team team_id position with
          | some p =>
            .ok (some p, playerAdd st data_source_id p 95 .exactNameFiltered,
              some .exactNameFiltered)
          | Option.none => .ok (Option.none, st, Option.none)
        else
          match (split_name_parts nm).2 with
          | [] => .ok (Option.none, st, Option.none)
          | c :: _ =>
            match playerSimFold st.similarity_threshold nm
                (if team_id ≠ [] then
                  (collectInitial (playerIdxInitial st.entities) c.toLower).filter
                    (fun p => decide (p.team_id = team_id))
                else if team ≠ [] then
                  (collectInitial (playerIdxInitial st.entities) c.toLower).filter
                    (fun p => decide (p.team = team))
                else collectInitial (playerIdxInitial st.entities) c.toLower)
                (Option.none, 0) with
            | .error err => .error err
            | .ok (some p, s) =>
              .ok (some p, playerAdd st data_source_id p (pyInt (s * 100)) (.fuzzyName s),
                some (.fuzzyName s))
            | .ok (Option.none, _) => .ok (Option.none, st, Option.none)

/-! ## Claims about the fuzzy confidence rating -/

/-- A team whose only populated fields are its name and id, a candidate for
fuzzy matching. -/
def c2Team : TeamEntity := ⟨pyStr "aabbccdf", [], [], [], [], [], [], [], [], [], 1⟩

/-- A TeamCartographer state with a single candidate team, an empty cache
and queue, and similarity threshold 0.5. -/
def c2State : TeamState := ⟨[c2Team], [], 1/2, [], [], pyStr "vendor"⟩

/-- The mapping row the fuzzy step queues for the call below: similarity
271/400 = 0.6775 is recorded as confidence int(67.75) = 67. -/
def c2Row : MappingRow := ⟨pyStr "vendor", pyStr "x1", 1, 67, .fuzzy (271/400)⟩

/-- The state after the fuzzy-resolved call below. -/
def c2State2 : TeamState :=
  { c2State with cache := [(pyStr "x1", c2Team)], pending := [c2Row] }

theorem c2_team_map_eval :
    teamMap c2State (pyStr "x1") (some (pyStr "aabbccdd"))
      = .ok (some c2Team, c2State2, some (.fuzzy (271/400))) := by
  have hsim : name_similarity (pyStr "aabbccdd") (pyStr "aabbccdf") = .ok (271/400) := by
    simp [name_similarity, normalize_name, strip_suffix, strip_convert_to_lowercase,
      remove_periods, replaceSub, replaceSubAux, containsSub, trimStr, NAME_SUFFIXES, pyStr,
      normalize_accents, unidecodeChar, levDist, levDistAux, jaccard_similarity, tokenizeDoc,
      vocabOf, vecOf, dotProd, cosineSim, pyDedup, pyDedupAux]
    norm_num
  have hsort : sortTeams [c2Team] = [c2Team] := by decide
  have hmapd : dictGetD [] (pyStr "aabbccdd") (pyStr "aabbccdd") = pyStr "aabbccdd" := by decide
  have hnorm : strip_convert_to_lowercase (pyStr "aabbccdd") = pyStr "aabbccdd" := by decide
  have h1 : lastAssoc (teamIdxName [c2Team]) (pyStr "aabbccdd") = Option.none := by decide
  have h2 : lastAssoc (teamIdxAlt [c2Team]) (pyStr "aabbccdd") = Option.none := by decide
  have h3 : lastAssoc (teamIdxAbbrev [c2Team]) (pyStr "aabbccdd") = Option.none := by decide
  have h4 : lastAssoc (teamIdxLoc [c2Team]) (pyStr "aabbccdd") = Option.none := by decide
  have h5 : lastAssoc (teamIdxMascot [c2Team]) (pyStr "aabbccdd") = Option.none := by decide
  have h6 : matchByTokens [c2Team] (pyStr "aabbccdd") = Option.none := by decide
  have hfold : matchBySimilarity [c2Team] (1/2) (pyStr "aabbccdd")
      = .ok (some c2Team, 271/400) := by
    have hname : teamName c2Team = pyStr "aabbccdf" := by decide
    have hne2 : ¬(pyStr "aabbccdf" = []) := by decide
    simp only [matchBySimilarity, teamSimFold, hname, hsim]
    norm_num [hne2]
  have hpyint : pyInt ((271 : ℚ)/400 * 100) = 67 := by
    have hm : ((271 : ℚ)/400) * 100 = 271/4 := by norm_num
    have hfl : ⌊(271 : ℚ)/4⌋ = 67 := by
      rw [Int.floor_eq_iff]
      norm_num
    rw [pyInt, hm, if_pos (by norm_num), hfl]
  have hds : (pyStr "x1").map Char.toLower = pyStr "x1" := by decide
  have hlit : ¬((['a', 'a', 'b', 'b', 'c', 'c', 'd', 'd'] : Str) = []) := by decide
  have hcid : c2Team.id = 1 := rfl
  have hnm : ¬(pyStr "aabbccdd" = []) := by decide
  simp only [teamMap, c2State, hds, hsort, hmapd, hnorm, h1, h2, h3, h4, h5, h6, hfold,
    hpyint, teamAdd, c2State2, c2Row]
  norm_num [lastAssoc, hlit, hcid, hnm]

/-- C2 counterexample: the fuzzy-resolved team mapping for similarity 0.6775
records confidence int(67.75) = 67, while the specification's formula
round(similarity x 100) gives 68. -/
theorem fuzzy_confidence_round_cx :
    teamMap c2State (pyStr "x1") (some (pyStr "aabbccdd"))
      = .ok (some c2Team, c2State2, some (.fuzzy (271/400))) ∧
    c2Row.confidence_rating = 67 ∧
    pyRound ((271 : ℚ)/400 * 100) = 68 ∧
    (67 : ℤ) ≠ 68 := by
  refine ⟨c2_team_map_eval, rfl, ?_, by decide⟩
  have hm : ((271 : ℚ)/400) * 100 = 271/4 := by norm_num
  have hfl : ⌊(271 : ℚ)/4⌋ = 67 := by
    rw [Int.floor_eq_iff]
    norm_num
  rw [pyRound, hm, hfl]
  norm_num

/-- C2 amended: every map call resolved by the fuzzy step queues a mapping
row whose confidence rating is int(similarity x 100), the similarity scaled
to 0-100 and truncated (not rounded) - for the team cartographer and the
player cartographer alike. -/
theorem cartographer_fuzzy_confidence_floor :
    (∀ (st : TeamState) (dsid : Str) (name : Option Str) (t : TeamEntity) (s : ℚ)
       (st2 : TeamState),
      teamMap st dsid name = .ok (some t, st2, some (.fuzzy s)) →
      st2.pending = st.pending ++
        [⟨st.data_source, dsid.map Char.toLower, t.id, pyInt (s * 100), .fuzzy s⟩]) ∧
    (∀ (st : PlayerState) (dsid : Str) (name : Option Str) (team team_id position : Str)
       (p : PlayerEntity) (s : ℚ) (st2 : PlayerState),
      playerMap st dsid name team team_id position = .ok (some p, st2, some (.fuzzyName s)) →
      st2.pending = st.pending ++
        [⟨st.data_source, dsid, p.id, pyInt (s * 100), .fuzzyName s⟩]) := by
  constructor
  · intro st dsid name t s st2 h
    simp only [teamMap] at h
    repeat' split at h
    all_goals simp at h
    obtain ⟨rfl, rfl, rfl⟩ := h
    simp [teamAdd]
  · intro st dsid name team team_id position p s st2 h
    rw [playerMap.eq_def] at h
    repeat' split at h
    all_goals simp only [Except.ok.injEq, Prod.mk.injEq, Option.some.injEq, reduceCtorEq,
      MatchMethod.fuzzyName.injEq, false_and, and_false] at h
    obtain ⟨rfl, rfl, rfl⟩ := h
    simp [playerAdd]

/-- Witness for the C2 amended theorem at the concrete fuzzy-resolved call. -/
theorem cartographer_fuzzy_confidence_floor_witness :
    c2State2.pending = c2State.pending ++
      [⟨c2State.data_source, (pyStr "x1").map Char.toLower, c2Team.id,
        pyInt ((271 : ℚ)/400 * 100), .fuzzy (271/400)⟩] :=
  cartographer_fuzzy_confidence_floor.1 c2State (pyStr "x1") (some (pyStr "aabbccdd"))
    c2Team (271/400) c2State2 c2_team_map_eval

/-! ## mg/alerts/alerts.py : BaseCheck monitoring window

Instants are minutes since an epoch, in UTC.  datetime.now(cst).date() is
the calendar day of the Central local time, i.e. the floor of (now + offset)
in days, where offset is the Central UTC offset in minutes: -360 under CST,
-300 under CDT (the two values pytz can produce for US/Central). -/

/-- BaseCheck._in_monitoring_window: take today's Central calendar day,
build the UTC start/end window timestamps on that calendar day from the
configured hours (rolling the end to the next day when end_hour is below
start_hour), and test strict containment of the current instant. -/
def inMonitoringWindow (offset : ℤ) (start_hour end_hour : ℕ) (now : ℤ) : Bool :=
  let cstDay := (now + offset).fdiv 1440
  let startW := cstDay * 1440 + start_hour * 60
  let endW := (if end_hour < start_hour then cstDay + 1 else cstDay) * 1440 + end_hour * 60
  decide (startW < now ∧ now < endW)

/-- BaseCheck._check_is_active: paused checks are inactive, always-on checks
(start 0, end 24, as computed in the constructor) are active, everything
else follows the monitoring window. -/
def checkIsActive (is_paused : Bool) (start_hour end_hour : ℕ) (offset now : ℤ) : Bool :=
  if is_paused then false
  else if start_hour = 0 ∧ end_hour = 24 then true
  else inMonitoringWindow offset start_hour end_hour now

/-- C6: a non-paused check with start_hour 22 and end_hour 6 is active at
23:00 UTC of any Central calendar day d and at 02:00 UTC of the following
day, and inactive at 12:00 UTC, under either Central offset (CST or CDT). -/
theorem overnight_window_active (d offset : ℤ) (hoff : offset = -360 ∨ offset = -300) :
    checkIsActive false 22 6 offset (d * 1440 + 23 * 60) = true ∧
    checkIsActive false 22 6 offset ((d + 1) * 1440 + 2 * 60) = true ∧
    checkIsActive false 22 6 offset (d * 1440 + 12 * 60) = false := by
  have hfd : ∀ a : ℤ, a.fdiv 1440 = a / 1440 := fun a => Int.fdiv_eq_ediv a (by norm_num)
  have hco : ¬((22 : ℕ) = 0 ∧ (6 : ℕ) = 24) := by decide
  have hlt : (6 : ℕ) < 22 := by decide
  rcases hoff with rfl | rfl <;>
    refine ⟨?_, ?_, ?_⟩ <;>
      (simp only [checkIsActive, if_false, if_neg hco, inMonitoringWindow, hfd, if_pos hlt,
        Bool.false_eq_true, decide_eq_true_eq, decide_eq_false_iff_not]
       omega)

/-- Witness for C6 on Central day 0 under CST. -/
theorem overnight_window_active_witness :
    checkIsActive false 22 6 (-360) (0 * 1440 + 23 * 60) = true ∧
    checkIsActive false 22 6 (-360) ((0 + 1) * 1440 + 2 * 60) = true ∧
    checkIsActive false 22 6 (-360) (0 * 1440 + 12 * 60) = false :=
  overnight_window_active 0 (-360) (Or.inl rfl)

/-! ## mg/etl/chronos.py : string-to-date conversions

Dates are modelled as day counts; datetimes carry a day count and the
seconds into the day.  The stdlib strptime calls are modelled by parse
oracles returning their result on success and nothing on failure, so the
theorems hold for every behaviour of the format parser. -/

/-- The value a chronos conversion returns: a date (no time-of-day
component), a datetime, or the absent value a logged parse failure
produces. -/
inductive DTVal where
  | dateV (day : ℤ)
  | datetimeV (day : ℤ) (secs : ℕ)
  | noneV
  deriving DecidableEq, Repr

/-- chronos.convert_str_to_date: the literal "yesterday" becomes PST today
minus one day; anything else goes through strptime with format %Y-%m-%d,
yielding a date or an absent result. -/
def convert_str_to_date (parseDate : Str → Option ℤ) (todayPST : ℤ) (s : Str) : DTVal :=
  if s = pyStr "yesterday" then .dateV (todayPST - 1)
  else
    match parseDate s with
    | some d => .dateV d
    | Option.none => .noneV

/-- chronos.convert_str_to_datetime: the literal "yesterday" becomes PST
today minus one day (a date, not a datetime); anything else is truncated to
19 characters, T replaced by a space, and parsed with format
%Y-%m-%d %H:%M:%S, yielding a datetime or an absent result. -/
def convert_str_to_datetime (parseDT : Str → Option (ℤ × ℕ)) (todayPST : ℤ) (s : Str) : DTVal :=
  if s = pyStr "yesterday" then .dateV (todayPST - 1)
  else
    match parseDT (replaceSub (pyStr "T") (pyStr " ") (s.take 19)) with
    | some dt => .datetimeV dt.1 dt.2
    | Option.none => .noneV

/-- C9: on "yesterday" the datetime parser returns the date value PST today
minus one day - the identical value convert_str_to_date returns - and on
every other input it never returns a date value, whatever the underlying
format parsers do. -/
theorem convert_str_to_datetime_yesterday
    (parseDate : Str → Option ℤ) (parseDT : Str → Option (ℤ × ℕ)) (today : ℤ) :
    convert_str_to_datetime parseDT today (pyStr "yesterday") = .dateV (today - 1) ∧
    convert_str_to_date parseDate today (pyStr "yesterday") =
      convert_str_to_datetime parseDT today (pyStr "yesterday") ∧
    (∀ s : Str, s ≠ pyStr "yesterday" →
      ∀ d : ℤ, convert_str_to_datetime parseDT today s ≠ .dateV d) := by
  refine ⟨by simp [convert_str_to_datetime],
    by simp [convert_str_to_date, convert_str_to_datetime], ?_⟩
  intro s hs d
  simp only [convert_str_to_datetime, if_neg hs]
  split <;> simp

/-- Witness for C9 with a trivial parse oracle, today = 5 and the input
"2020-01-01". -/
theorem convert_str_to_datetime_yesterday_witness :
    convert_str_to_datetime (fun _ => Option.none) 5 (pyStr "2020-01-01") ≠ .dateV 4 :=
  (convert_str_to_datetime_yesterday (fun _ => Option.none) (fun _ => Option.none) 5).2.2
    (pyStr "2020-01-01") (by decide) 4

end Mg
